import Mathlib

/-!
Shallow embedding of the telnet user-session layer of
`src/uspace/srv/hid/remcons/user.c` (HelenOS remote console server).

The TCP connection (`tcp_conn_t`) is modelled inside the session record:
`conn_inc` is the list of pending results of successive `tcp_conn_recv_wait`
calls (a data chunk or a transport error), `conn_eof` records that the peer
has closed the connection (every later `tcp_conn_recv_wait` then reports a
zero-length read, as TCP does), `conn_send_results` gives the outcomes of
successive `tcp_conn_send` calls (an empty list means every send succeeds),
and `conn_wire` accumulates the bytes successfully handed to TCP.

The byte loops of `telnet_user_recv` and `telnet_user_send_raw_locked` are
written with an explicit fuel argument so that they are structurally
recursive and kernel-computable; the fuel chosen at each entry point is large
enough for every terminating run of the C loops (each iteration consumes
input), and exhausted fuel is reported as `none`, the same value that models
blocking forever inside `tcp_conn_recv_wait`.
-/

/-- Error codes used by `user.c` (from `errno.h`). -/
inductive Errno where
  | EOK
  | ENOENT
  | Eio
deriving DecidableEq, Repr

/-- One result of a `tcp_conn_recv_wait` call: a received chunk of bytes
(the empty chunk is a zero-length read, i.e. the peer closed), or a transport
error. -/
inductive TcpEv where
  | chunk (bs : List Nat)
  | terr (e : Errno)
deriving DecidableEq, Repr

/-- Modelled from the spec: `BUFFER_SIZE` is declared in the absent header
`user.h`; the spec recommends 4 KiB for the per-session receive buffer. -/
def BUFFER_SIZE : Nat := 4096

/-- Modelled from the spec: `SEND_BUF_SIZE` is declared in the absent header
`user.h`; the spec recommends 4 KiB for the send batch buffer. -/
def SEND_BUF_SIZE : Nat := 4096

/-- Modelled from the spec: `TELNET_IAC` is declared in the absent header
`telnet.h`; the spec fixes IAC = 0xFF. -/
def TELNET_IAC : Nat := 255

/-- Modelled from the spec: `TELNET_IS_OPTION_CODE` is declared in the absent
header `telnet.h`; the spec fixes the option commands WILL=251, WONT=252,
DO=253, DONT=254. -/
def TELNET_IS_OPTION_CODE (b : Nat) : Bool :=
  251 ≤ b && b ≤ 254

/-- The session record `telnet_user_t`, with the fields of `user.c` that the
byte paths and lifecycle touch, plus the model of its owned TCP connection.
`socket_buffer` holds the `socket_buffer_len` valid bytes of the C array;
`send_buf` holds the `send_buf_used` buffered bytes. -/
structure telnet_user_t where
  service_id : Int
  socket_buffer : List Nat
  socket_buffer_len : Nat
  socket_buffer_pos : Nat
  send_buf : List Nat
  send_buf_used : Nat
  cursor_x : Int
  cursor_y : Int
  rows : Nat
  task_finished : Bool
  socket_closed : Bool
  srvs_aborted : Bool
  locsrv_connection_count : Nat
  conn_inc : List TcpEv
  conn_eof : Bool
  conn_send_results : List Errno
  conn_wire : List Nat
deriving DecidableEq, Repr

/-- Contract of `tcp_conn_recv_wait(user->conn, buf, cap, &len)`: blocks
(`none`) when nothing is pending and the peer has not closed; otherwise
delivers at most `cap` bytes of the next pending chunk (a closed connection
keeps reporting zero-length reads), or a transport error. -/
def tcp_conn_recv_wait (u : telnet_user_t) (cap : Nat) :
    Option (Errno × List Nat × telnet_user_t) :=
  match u.conn_inc with
  | TcpEv.terr e :: rest => some (e, [], { u with conn_inc := rest })
  | TcpEv.chunk c :: rest =>
      if c.length ≤ cap then
        some (Errno.EOK, c, { u with conn_inc := rest })
      else
        some (Errno.EOK, c.take cap,
          { u with conn_inc := TcpEv.chunk (c.drop cap) :: rest })
  | [] => if u.conn_eof then some (Errno.EOK, [], u) else none

/-- Contract of `tcp_conn_send(user->conn, data, size)`: the next queued
outcome decides success; a successful send appends the bytes to the wire,
a failed one sends nothing.  An exhausted outcome list means success. -/
def tcp_conn_send (u : telnet_user_t) (data : List Nat) :
    Errno × telnet_user_t :=
  match u.conn_send_results with
  | [] => (Errno.EOK, { u with conn_wire := u.conn_wire ++ data })
  | r :: rest =>
      if r = Errno.EOK then
        (Errno.EOK, { u with conn_wire := u.conn_wire ++ data,
                             conn_send_results := rest })
      else
        (r, { u with conn_send_results := rest })

/-- `telnet_user_fill_recv_buf` (user.c:190-210): refill the receive buffer
from TCP; a zero-length read marks the session closed and aborted and
returns ENOENT. -/
def telnet_user_fill_recv_buf (u : telnet_user_t) :
    Option (Errno × telnet_user_t) :=
  match tcp_conn_recv_wait u BUFFER_SIZE with
  | none => none
  | some (rc, bs, u1) =>
      if rc = Errno.EOK then
        if bs.length = 0 then
          some (Errno.ENOENT, { u1 with socket_closed := true,
                                        srvs_aborted := true })
        else
          some (Errno.EOK, { u1 with socket_buffer := bs,
                                     socket_buffer_len := bs.length,
                                     socket_buffer_pos := 0 })
      else
        some (rc, u1)

/-- `telnet_user_recv_next_byte_locked` (user.c:218-231): take the next
buffered byte, refilling first when the buffer is drained. -/
def telnet_user_recv_next_byte_locked (u : telnet_user_t) :
    Option (Errno × Nat × telnet_user_t) :=
  if u.socket_buffer_len ≤ u.socket_buffer_pos then
    match telnet_user_fill_recv_buf u with
    | none => none
    | some (rc, u1) =>
        if rc = Errno.EOK then
          some (Errno.EOK, u1.socket_buffer.getD u1.socket_buffer_pos 0,
            { u1 with socket_buffer_pos := u1.socket_buffer_pos + 1 })
        else
          some (rc, 0, u1)
  else
    some (Errno.EOK, u.socket_buffer.getD u.socket_buffer_pos 0,
      { u with socket_buffer_pos := u.socket_buffer_pos + 1 })

/-- `telnet_user_byte_avail` (user.c:238-241). -/
def telnet_user_byte_avail (u : telnet_user_t) : Bool :=
  u.socket_buffer_pos < u.socket_buffer_len

/-- State of the inner filter of `telnet_user_recv`: the value of `next_byte`
after one iteration of the inner loop body, together with
`inside_telnet_command` and `telnet_option_code`. -/
structure RecvStep where
  nb : Nat
  inside : Bool
  optCode : Nat
deriving DecidableEq, Repr

/-- One iteration of the inner loop body of `telnet_user_recv`
(user.c:292-309) on byte `b`: telnet-command handling, then the IAC check. -/
def recvStep (inside : Bool) (optCode : Nat) (b : Nat) : RecvStep :=
  let s1 : RecvStep :=
    if inside then
      if TELNET_IS_OPTION_CODE b then
        ⟨0, true, b⟩
      else
        ⟨0, false, optCode⟩
    else
      ⟨b, inside, optCode⟩
  if b = TELNET_IAC then ⟨0, true, s1.optCode⟩ else s1

/-- Bytes not yet consumed from the pending TCP events. -/
def incBytes : List TcpEv → Nat
  | [] => 0
  | TcpEv.chunk bs :: r => bs.length + incBytes r
  | TcpEv.terr _ :: r => incBytes r

/-- Bytes the receive path can still consume without blocking forever:
undrained buffered bytes plus all pending chunk bytes. -/
def availBytes (u : telnet_user_t) : Nat :=
  (u.socket_buffer_len - u.socket_buffer_pos) + incBytes u.conn_inc

/-- The inner do-while loop of `telnet_user_recv` (user.c:285-310): read
bytes, filtering telnet commands, until a non-suppressed byte arrives or no
byte is available without blocking.  Each iteration consumes one byte of
input, so `availBytes u + 1` fuel covers every terminating run. -/
def recvInnerF : Nat → telnet_user_t → Bool → Nat →
    Option (Errno × Nat × telnet_user_t)
  | 0, _, _, _ => none
  | fuel + 1, u, inside, optCode =>
      match telnet_user_recv_next_byte_locked u with
      | none => none
      | some (rc, b, u1) =>
          if rc = Errno.EOK then
            let st := recvStep inside optCode b
            if st.nb = 0 ∧ telnet_user_byte_avail u1 then
              recvInnerF fuel u1 st.inside st.optCode
            else
              some (Errno.EOK, st.nb, u1)
          else
            some (rc, 0, u1)

/-- The outer do-while loop of `telnet_user_recv` (user.c:278-322):
`inside_telnet_command` and `telnet_option_code` are local to each
iteration, so every run of the inner loop starts outside a command; CR is
folded to LF and non-zero bytes are delivered.  Each iteration whose inner
loop succeeds consumes at least one byte of input, so `availBytes u + 1`
fuel covers every terminating run. -/
def recvOuterF : Nat → telnet_user_t → Nat → List Nat →
    Option (Errno × List Nat × telnet_user_t)
  | 0, _, _, _ => none
  | fuel + 1, u, size, acc =>
      match recvInnerF (availBytes u + 1) u false 0 with
      | none => none
      | some (rc, nb, u1) =>
          if rc = Errno.EOK then
            let nb2 := if nb = 13 then 10 else nb
            let acc2 := if nb2 ≠ 0 then acc ++ [nb2] else acc
            let size2 := if nb2 ≠ 0 then size - 1 else size
            if 0 < size2 ∧ (telnet_user_byte_avail u1 ∨ acc2.length = 0) then
              recvOuterF fuel u1 size2 acc2
            else
              some (Errno.EOK, acc2, u1)
          else
            some (rc, acc, u1)

/-- `telnet_user_recv` (user.c:269-326): deliver decoded bytes.  `none`
models a call that never returns (blocked on `tcp_conn_recv_wait`);
`some (rc, out, u1)` models a return with code `rc` after writing the bytes
`out` to the caller's buffer (`*nread = out.length`). -/
def telnet_user_recv (u : telnet_user_t) (size : Nat) :
    Option (Errno × List Nat × telnet_user_t) :=
  recvOuterF (availBytes u + 1) u size []

/-- The while loop of `telnet_user_send_raw_locked` (user.c:336-353): append
to the batch buffer, flushing the full buffer to TCP when no slack remains.
At most two iterations per input byte occur, so `2 * size + 2` fuel covers
every run. -/
def sendRawLoopF : Nat → telnet_user_t → List Nat →
    Option (Errno × telnet_user_t)
  | 0, _, _ => none
  | _ + 1, u, [] => some (Errno.EOK, u)
  | fuel + 1, u, b :: bs =>
      if SEND_BUF_SIZE - u.send_buf_used = 0 then
        let s := tcp_conn_send u u.send_buf
        if s.1 = Errno.EOK then
          sendRawLoopF fuel
            { s.2 with send_buf := [], send_buf_used := 0 } (b :: bs)
        else
          some (s.1, s.2)
      else
        let now := min (SEND_BUF_SIZE - u.send_buf_used) (b :: bs).length
        sendRawLoopF fuel
          { u with send_buf := u.send_buf ++ (b :: bs).take now,
                   send_buf_used := u.send_buf_used + now }
          ((b :: bs).drop now)

/-- `telnet_user_send_raw_locked` (user.c:328-356). -/
def telnet_user_send_raw_locked (u : telnet_user_t) (data : List Nat) :
    Option (Errno × telnet_user_t) :=
  sendRawLoopF (2 * data.length + 2) u data

/-- The conversion loop of `telnet_user_send_data_locked` (user.c:372-387):
the produced `converted` byte list together with the final cursor position.
LF expands to CR LF, resets the column and bumps the row below `rows - 1`;
backspace decrements the column, any other byte increments it. -/
def sendDataConvert (rows : Nat) : List Nat → Int → Int →
    List Nat × Int × Int
  | [], cx, cy => ([], cx, cy)
  | b :: bs, cx, cy =>
      if b = 10 then
        let r := sendDataConvert rows bs 0
          (if cy < (rows : Int) - 1 then cy + 1 else cy)
        (13 :: 10 :: r.1, r.2)
      else
        let r := sendDataConvert rows bs
          (if b = 8 then cx - 1 else cx + 1) cy
        (b :: r.1, r.2)

/-- `telnet_user_send_data_locked` (user.c:364-394): convert, update the
cursor, then hand the converted bytes to the raw send path. -/
def telnet_user_send_data_locked (u : telnet_user_t) (data : List Nat) :
    Option (Errno × telnet_user_t) :=
  let c := sendDataConvert u.rows data u.cursor_x u.cursor_y
  telnet_user_send_raw_locked
    { u with cursor_x := c.2.1, cursor_y := c.2.2 } c.1

/-- `telnet_user_send_data` (user.c:402-412); the mutex is elided. -/
def telnet_user_send_data (u : telnet_user_t) (data : List Nat) :
    Option (Errno × telnet_user_t) :=
  telnet_user_send_data_locked u data

/-- `telnet_user_send_raw` (user.c:420-430); the mutex is elided. -/
def telnet_user_send_raw (u : telnet_user_t) (data : List Nat) :
    Option (Errno × telnet_user_t) :=
  telnet_user_send_raw_locked u data

/-- `telnet_user_flush` (user.c:432-447): send the batched bytes; only a
successful send resets `send_buf_used`. -/
def telnet_user_flush (u : telnet_user_t) : Errno × telnet_user_t :=
  let s := tcp_conn_send u u.send_buf
  if s.1 = Errno.EOK then
    (Errno.EOK, { s.2 with send_buf := [], send_buf_used := 0 })
  else
    (s.1, s.2)

/-- `telnet_user_update_cursor_x` (user.c:456-467): a one-column leftward
jump emits a single backspace through the send path (errors ignored); the
recorded column is always set to `new_x`. -/
def telnet_user_update_cursor_x (u : telnet_user_t) (new_x : Int) :
    Option telnet_user_t :=
  if u.cursor_x - 1 = new_x then
    match telnet_user_send_data_locked u [8] with
    | none => none
    | some (_, u1) => some { u1 with cursor_x := new_x }
  else
    some { u with cursor_x := new_x }

/-- `telnet_user_get_for_client_connection` (user.c:128-162) on the global
session list: find the first session with the given service id; if found,
increment its reference count, then — if the session is zombie — the C code
nulls the local pointer and executes `user->locsrv_connection_count--`
through it, a null-pointer dereference.  That undefined behaviour is
modelled as `none`; a defined return is `some (found?, updated list)`. -/
def telnet_user_get_for_client_connection :
    List telnet_user_t → Int → Option (Option telnet_user_t × List telnet_user_t)
  | [], _ => some (none, [])
  | t :: rest, id =>
      if t.service_id = id then
        let t1 := { t with locsrv_connection_count :=
                      t.locsrv_connection_count + 1 }
        if t1.task_finished || t1.socket_closed then
          none
        else
          some (some t1, t1 :: rest)
      else
        match telnet_user_get_for_client_connection rest id with
        | none => none
        | some (r, rest1) => some (r, t :: rest1)

/-- `telnet_user_create` (user.c:65-100): a fresh session; the connection is
modelled by the pending receive events, the peer-closed flag and the queued
send outcomes. -/
def telnet_user_create (conn_inc : List TcpEv) (conn_eof : Bool)
    (conn_send_results : List Errno) (rows : Nat) : telnet_user_t :=
  { service_id := -1
    socket_buffer := []
    socket_buffer_len := 0
    socket_buffer_pos := 0
    send_buf := []
    send_buf_used := 0
    cursor_x := 0
    cursor_y := 0
    rows := rows
    task_finished := false
    socket_closed := false
    srvs_aborted := false
    locsrv_connection_count := 0
    conn_inc := conn_inc
    conn_eof := conn_eof
    conn_send_results := conn_send_results
    conn_wire := [] }

/-- The buffer-index invariants of the spec:
`0 ≤ socket_buffer_pos ≤ socket_buffer_len ≤ BUFFER_SIZE` and
`0 ≤ send_buf_used ≤ SEND_BUF_SIZE` (the lower bounds are inherent to `Nat`). -/
def buffersInv (u : telnet_user_t) : Prop :=
  u.socket_buffer_pos ≤ u.socket_buffer_len ∧
  u.socket_buffer_len ≤ BUFFER_SIZE ∧
  u.send_buf_used ≤ SEND_BUF_SIZE

instance (u : telnet_user_t) : Decidable (buffersInv u) := by
  unfold buffersInv
  infer_instance

/-- Observable outcome of a `telnet_user_recv` call: the return code and the
bytes delivered to the caller. -/
def recvProj (u : telnet_user_t) (size : Nat) : Option (Errno × List Nat) :=
  (telnet_user_recv u size).map fun r => (r.1, r.2.1)

/-- The bytes a `telnet_user_recv` call writes into the caller's buffer. -/
def recvDelivered (u : telnet_user_t) (size : Nat) : List Nat :=
  match telnet_user_recv u size with
  | none => []
  | some r => r.2.1

/-- The return code of a `telnet_user_recv` call. -/
def recvRC (u : telnet_user_t) (size : Nat) : Option Errno :=
  (telnet_user_recv u size).map fun r => r.1

/-- Observable outcome of `telnet_user_send_data` followed by
`telnet_user_flush`: both return codes, the final wire content and the final
batch fill. -/
def sendDataFlushProj (u : telnet_user_t) (data : List Nat) :
    Option (Errno × Errno × List Nat × Nat) :=
  (telnet_user_send_data u data).map fun r =>
    (r.1, (telnet_user_flush r.2).1, (telnet_user_flush r.2).2.conn_wire,
      (telnet_user_flush r.2).2.send_buf_used)

/-- Final cursor position of a `telnet_user_send_data_locked` call on a
single byte. -/
def sendDataCursorProj (u : telnet_user_t) (b : Nat) :
    Option (Int × Int) :=
  (telnet_user_send_data_locked u [b]).map fun r =>
    (r.2.cursor_x, r.2.cursor_y)

/-- Observable outcome of `telnet_user_update_cursor_x`: the recorded column
and the whole byte stream submitted to the send path (wire plus batch). -/
def updateCursorProj (u : telnet_user_t) (nx : Int) :
    Option (Int × List Nat) :=
  (telnet_user_update_cursor_x u nx).map fun u1 =>
    (u1.cursor_x, u1.conn_wire ++ u1.send_buf)

/-- The spec's send-side transformation, in its own words: the byte stream
reaching TCP equals the submission with every LF (10) replaced by CR LF
(13 10). -/
def lf_to_crlf (s : List Nat) : List Nat :=
  s.flatMap fun b => if b = 10 then [13, 10] else [b]

/-- The state after the receive path observed a zero-length TCP read
(user.c:200-204). -/
def peerClosedState (u : telnet_user_t) : telnet_user_t :=
  { u with socket_closed := true, srvs_aborted := true }

/-- A fresh session with no pending input, an open connection and all TCP
sends succeeding. -/
def freshUser : telnet_user_t := telnet_user_create [] false [] 24

/-- Fresh session whose peer sent the bytes of scenario 2 of the spec
(x CR y) in one TCP fill. -/
def c3_user : telnet_user_t :=
  telnet_user_create [TcpEv.chunk [120, 13, 121]] false [] 24

/-- Fresh session whose peer sent IAC DO 0x18 'A' split right after the IAC
byte. -/
def c2_split_after_iac : telnet_user_t :=
  telnet_user_create [TcpEv.chunk [255], TcpEv.chunk [253, 24, 65]] false [] 24

/-- Fresh session whose peer sent IAC DO 0x18 'A' in one TCP fill. -/
def c2_unsplit : telnet_user_t :=
  telnet_user_create [TcpEv.chunk [255, 253, 24, 65]] false [] 24

/-- Fresh session whose peer sent IAC DO 0x18 'A' split after the whole
command, before the data byte. -/
def c2_split_before_data : telnet_user_t :=
  telnet_user_create [TcpEv.chunk [255, 253, 24], TcpEv.chunk [65]] false [] 24

/-- Fresh session whose peer sent a single data byte. -/
def c5_user : telnet_user_t :=
  telnet_user_create [TcpEv.chunk [65]] false [] 24

/-- A registered zombie session: service id 7, socket already closed. -/
def c1_zombie : telnet_user_t :=
  { telnet_user_create [] false [] 24 with service_id := 7, socket_closed := true }

/-- Fresh session whose recorded cursor column is 5. -/
def c7_user : telnet_user_t :=
  { telnet_user_create [] false [] 24 with cursor_x := 5 }

/-- Session whose peer has closed the connection and whose buffer is
drained. -/
def c8_user : telnet_user_t := telnet_user_create [] true [] 24

/-- Session with two batched bytes whose next TCP send will fail. -/
def c10_user : telnet_user_t :=
  { telnet_user_create [] false [] 24 with
      send_buf := [1, 2]
      send_buf_used := 2
      conn_send_results := [Errno.Eio] }

/-- C1: the claim says a lookup of a zombie session returns NOT_FOUND and
leaves `locsrv_connection_count` unchanged.  The code instead increments the
count and then decrements it through a pointer it has just nulled: on the
concrete zombie registry below the call is undefined behaviour (modelled as
`none`), not a NOT_FOUND return. -/
theorem c1_zombie_lookup_null_deref :
    telnet_user_get_for_client_connection [c1_zombie] 7 = none := by
  decide

/-- C2 counterexample: splitting the peer bytes IAC DO 0x18 'A' into the
TCP fills [IAC] and [DO 0x18 'A'] makes `recv(dst, 4)` on a fresh session
return n = 3 with the command bytes delivered verbatim, not n = 1 with 'A':
`inside_telnet_command` is local to one outer-loop iteration, so the command
state is lost at the fill boundary. -/
theorem c2_counterexample :
    recvProj c2_split_after_iac 4 = some (Errno.EOK, [253, 24, 65]) ∧
    recvProj c2_split_after_iac 4 ≠ some (Errno.EOK, [65]) := by
  constructor
  · decide
  · decide

/-- C2 (amended): command stripping composes across buffer fills only when
no fill boundary falls inside the command sequence: for the unsplit bytes
IAC DO 0x18 'A' and for the split IAC DO 0x18 | 'A', `recv(dst, 4)` on a
fresh session returns n = 1 with dst[0] = 'A'. -/
theorem c2_amended_stripping :
    recvProj c2_unsplit 4 = some (Errno.EOK, [65]) ∧
    recvProj c2_split_before_data 4 = some (Errno.EOK, [65]) := by
  constructor
  · decide
  · decide
theorem recvStep_nb (inside : Bool) (optCode : Nat) (b : Nat) :
    (recvStep inside optCode b).nb = 0 ∨
      ((recvStep inside optCode b).nb = b ∧ b ≠ TELNET_IAC) := by
  unfold recvStep
  by_cases hb : b = TELNET_IAC
  · left
    simp [hb]
  · cases inside with
    | false => right; simp [hb]
    | true =>
        left
        simp only [hb, if_false, if_true, Bool.true_eq]
        split <;> simp [hb]

theorem recvInnerF_nb :
    ∀ fuel u inside optCode rc nb u1,
      recvInnerF fuel u inside optCode = some (rc, nb, u1) →
      nb = 0 ∨ nb ≠ 255 := by
  intro fuel
  induction fuel with
  | zero =>
      intro u i oc rc nb u1 h
      simp [recvInnerF] at h
  | succ f ih =>
      intro u i oc rc nb u1 h
      simp only [recvInnerF] at h
      split at h
      · exact absurd h (by simp)
      next rc0 b0 u0 heq =>
        split at h
        · split at h
          · exact ih _ _ _ _ _ _ h
          · simp only [Option.some.injEq, Prod.mk.injEq] at h
            obtain ⟨h1, h2, h3⟩ := h
            subst h2
            rcases recvStep_nb i oc b0 with h0 | ⟨hb, hIAC⟩
            · exact Or.inl h0
            · right
              rw [hb]
              simpa [TELNET_IAC] using hIAC
        · simp only [Option.some.injEq, Prod.mk.injEq] at h
          obtain ⟨h1, h2, h3⟩ := h
          exact Or.inl h2.symm
theorem recvOuterF_filtered :
    ∀ fuel u size acc rc out u1,
      recvOuterF fuel u size acc = some (rc, out, u1) →
      (∀ b ∈ acc, b ≠ 0 ∧ b ≠ 13 ∧ b ≠ 255) →
      ∀ b ∈ out, b ≠ 0 ∧ b ≠ 13 ∧ b ≠ 255 := by
  intro fuel
  induction fuel with
  | zero =>
      intro u size acc rc out u1 h hacc
      simp [recvOuterF] at h
  | succ f ih =>
      intro u size acc rc out u1 h hacc
      simp only [recvOuterF] at h
      split at h
      · exact absurd h (by simp)
      next rc0 nb u0 heq =>
        split at h
        next hrc =>
          set nb2 := (if nb = 13 then 10 else nb) with hnb2
          have hP2 : nb2 ≠ 0 → nb2 ≠ 0 ∧ nb2 ≠ 13 ∧ nb2 ≠ 255 := by
            intro h0
            by_cases h13 : nb = 13
            · refine ⟨h0, ?_, ?_⟩ <;> simp [hnb2, h13]
            · have he : nb2 = nb := by simp [hnb2, h13]
              rcases recvInnerF_nb _ _ _ _ _ _ _ heq with hz | h255
              · rw [he, hz] at h0
                exact absurd rfl h0
              · refine ⟨h0, ?_, ?_⟩
                · rw [he]; exact h13
                · rw [he]; exact h255
          by_cases h0 : nb2 ≠ 0
          · have hPapp : ∀ b ∈ acc ++ [nb2], b ≠ 0 ∧ b ≠ 13 ∧ b ≠ 255 := by
              intro b hb
              rcases List.mem_append.mp hb with hb | hb
              · exact hacc b hb
              · have hb' : b = nb2 := by simpa using hb
                rw [hb']
                exact hP2 h0
            simp only [if_pos h0] at h
            split at h
            · exact ih _ _ _ _ _ _ h hPapp
            · simp only [Option.some.injEq, Prod.mk.injEq] at h
              obtain ⟨h1, h2, h3⟩ := h
              subst h2
              exact hPapp
          · simp only [if_neg h0] at h
            split at h
            · exact ih _ _ _ _ _ _ h hacc
            · simp only [Option.some.injEq, Prod.mk.injEq] at h
              obtain ⟨h1, h2, h3⟩ := h
              subst h2
              exact hacc
        · simp only [Option.some.injEq, Prod.mk.injEq] at h
          obtain ⟨h1, h2, h3⟩ := h
          subst h2
          exact hacc
/-- C3: every byte `telnet_user_recv` delivers differs from 0 (NUL is
suppressed), from 13 (CR is folded to LF) and from 255 (IAC is never
delivered); concretely, peer bytes x CR y are delivered as x LF y. -/
theorem c3_recv_filtered :
    (∀ u size b, b ∈ recvDelivered u size → b ≠ 0 ∧ b ≠ 13 ∧ b ≠ 255) ∧
    recvProj c3_user 3 = some (Errno.EOK, [120, 10, 121]) := by
  constructor
  · intro u size b hb
    unfold recvDelivered telnet_user_recv at hb
    rcases h : recvOuterF (availBytes u + 1) u size [] with _ | r
    · rw [h] at hb
      simp at hb
    · rw [h] at hb
      obtain ⟨rc, out, u1⟩ := r
      exact recvOuterF_filtered _ _ _ _ _ _ _ h (by simp) b hb
  · decide

/-- C3 witness: the byte x survives the filter of the concrete scenario. -/
theorem c3_witness : (120 : Nat) ≠ 0 ∧ (120 : Nat) ≠ 13 ∧ (120 : Nat) ≠ 255 :=
  c3_recv_filtered.1 c3_user 3 120 (by decide)

theorem recvOuterF_progress :
    ∀ fuel u size acc out u1,
      recvOuterF fuel u size acc = some (Errno.EOK, out, u1) →
      (acc ≠ [] ∨ 0 < size) → out ≠ [] := by
  intro fuel
  induction fuel with
  | zero =>
      intro u size acc out u1 h hpre
      simp [recvOuterF] at h
  | succ f ih =>
      intro u size acc out u1 h hpre
      simp only [recvOuterF] at h
      split at h
      · exact absurd h (by simp)
      next rc0 nb u0 heq =>
        split at h
        next hrc =>
          set nb2 := (if nb = 13 then 10 else nb) with hnb2
          by_cases h0 : nb2 ≠ 0
          · simp only [if_pos h0] at h
            split at h
            next hguard => exact ih _ _ _ _ _ h (Or.inr hguard.1)
            · simp only [Option.some.injEq, Prod.mk.injEq] at h
              obtain ⟨h1, h2, h3⟩ := h
              rw [← h2]
              simp
          · simp only [if_neg h0] at h
            split at h
            next hguard => exact ih _ _ _ _ _ h (Or.inr hguard.1)
            next hguard =>
              simp only [Option.some.injEq, Prod.mk.injEq] at h
              obtain ⟨h1, h2, h3⟩ := h
              rw [← h2]
              rcases hpre with hne | hsz
              · exact hne
              · intro hnil
                exact hguard ⟨hsz, Or.inr (by rw [hnil]; rfl)⟩
        next hrc =>
          simp only [Option.some.injEq, Prod.mk.injEq] at h
          obtain ⟨h1, h2, h3⟩ := h
          exact absurd h1 hrc
/-- C5: a `telnet_user_recv` call with positive capacity that returns EOK
has delivered at least one byte; zero-byte success is impossible (the loop
blocks instead), and other exits return an error. -/
theorem c5_recv_progress :
    ∀ u size, 0 < size → recvRC u size = some Errno.EOK →
      0 < (recvDelivered u size).length := by
  intro u size hsz hrc
  unfold recvRC telnet_user_recv at hrc
  unfold recvDelivered telnet_user_recv
  rcases h : recvOuterF (availBytes u + 1) u size [] with _ | r
  · rw [h] at hrc
    simp at hrc
  · rw [h] at hrc
    obtain ⟨rc, out, u1⟩ := r
    simp only [Option.map_some', Option.map_some, Option.some.injEq] at hrc
    subst hrc
    have hne := recvOuterF_progress _ _ _ _ _ _ h (Or.inr hsz)
    simpa [List.length_pos] using hne

/-- C5 witness: on a session with one pending byte, recv of capacity 1
succeeds and delivers a byte. -/
theorem c5_witness : 0 < (recvDelivered c5_user 1).length :=
  c5_recv_progress c5_user 1 (by decide) (by decide)
theorem sendRawLoopF_isSome :
    ∀ fuel u data,
      2 * data.length + 1 +
        (if SEND_BUF_SIZE - u.send_buf_used = 0 then 1 else 0) ≤ fuel →
      (sendRawLoopF fuel u data).isSome := by
  intro fuel
  induction fuel with
  | zero =>
      intro u data hm
      by_cases h0 : SEND_BUF_SIZE - u.send_buf_used = 0 <;>
        simp [h0] at hm
  | succ f ih =>
      intro u data hm
      match data with
      | [] => simp [sendRawLoopF]
      | b :: bs =>
          rw [sendRawLoopF]
          by_cases h0 : SEND_BUF_SIZE - u.send_buf_used = 0
          · rw [if_pos h0]
            rw [if_pos h0] at hm
            by_cases hrc : (tcp_conn_send u u.send_buf).1 = Errno.EOK
            · simp only [if_pos hrc]
              apply ih
              simp only [List.length_cons] at hm ⊢
              have h4096 : ¬(SEND_BUF_SIZE - 0 = 0) := by decide
              rw [if_neg h4096]
              omega
            · simp only [if_neg hrc]
              simp
          · rw [if_neg h0]
            rw [if_neg h0] at hm
            apply ih
            have h1 : 1 ≤ SEND_BUF_SIZE - u.send_buf_used :=
              Nat.one_le_iff_ne_zero.mpr h0
            have hnow : 1 ≤ min (SEND_BUF_SIZE - u.send_buf_used)
                (b :: bs).length := by
              simp only [List.length_cons]
              omega
            have hdrop : ((b :: bs).drop (min (SEND_BUF_SIZE - u.send_buf_used)
                (b :: bs).length)).length =
                (b :: bs).length - min (SEND_BUF_SIZE - u.send_buf_used)
                (b :: bs).length := List.length_drop ..
            rw [hdrop]
            split <;> simp only [List.length_cons] at hm hnow ⊢ <;> omega
theorem tcp_conn_send_fields (u : telnet_user_t) (d : List Nat) :
    (tcp_conn_send u d).2.socket_buffer = u.socket_buffer ∧
    (tcp_conn_send u d).2.socket_buffer_len = u.socket_buffer_len ∧
    (tcp_conn_send u d).2.socket_buffer_pos = u.socket_buffer_pos ∧
    (tcp_conn_send u d).2.cursor_x = u.cursor_x ∧
    (tcp_conn_send u d).2.cursor_y = u.cursor_y ∧
    (tcp_conn_send u d).2.rows = u.rows ∧
    (tcp_conn_send u d).2.socket_closed = u.socket_closed ∧
    (tcp_conn_send u d).2.srvs_aborted = u.srvs_aborted ∧
    (tcp_conn_send u d).2.conn_inc = u.conn_inc ∧
    (tcp_conn_send u d).2.conn_eof = u.conn_eof ∧
    (tcp_conn_send u d).2.send_buf = u.send_buf ∧
    (tcp_conn_send u d).2.send_buf_used = u.send_buf_used := by
  unfold tcp_conn_send
  rcases u.conn_send_results with _ | ⟨r, rest⟩
  · simp
  · by_cases hr : r = Errno.EOK <;> simp [hr]

theorem sendRawLoopF_stream :
    ∀ fuel u data r,
      u.conn_send_results = [] →
      sendRawLoopF fuel u data = some r →
      r.1 = Errno.EOK ∧
      r.2.conn_wire ++ r.2.send_buf = u.conn_wire ++ u.send_buf ++ data ∧
      r.2.conn_send_results = [] := by
  intro fuel
  induction fuel with
  | zero =>
      intro u data r hres h
      simp [sendRawLoopF] at h
  | succ f ih =>
      intro u data r hres h
      match data with
      | [] =>
          simp only [sendRawLoopF, Option.some.injEq] at h
          subst h
          simp [hres]
      | b :: bs =>
          rw [sendRawLoopF] at h
          have hsend : tcp_conn_send u u.send_buf =
              (Errno.EOK, { u with conn_wire := u.conn_wire ++ u.send_buf }) := by
            simp [tcp_conn_send, hres]
          by_cases h0 : SEND_BUF_SIZE - u.send_buf_used = 0
          · rw [if_pos h0] at h
            simp only [hsend, if_pos] at h
            obtain ⟨hrc, hw, hres1⟩ := ih _ _ _ (by simp [hres]) h
            refine ⟨hrc, ?_, hres1⟩
            rw [hw]
            simp
          · rw [if_neg h0] at h
            obtain ⟨hrc, hw, hres1⟩ := ih _ _ _ (by simp [hres]) h
            refine ⟨hrc, ?_, hres1⟩
            rw [hw]
            simp only [List.append_assoc]
            rw [List.take_append_drop]
theorem sendRawLoopF_preserves :
    ∀ fuel u data r,
      sendRawLoopF fuel u data = some r →
      r.2.socket_buffer = u.socket_buffer ∧
      r.2.socket_buffer_len = u.socket_buffer_len ∧
      r.2.socket_buffer_pos = u.socket_buffer_pos ∧
      r.2.cursor_x = u.cursor_x ∧
      r.2.cursor_y = u.cursor_y ∧
      r.2.rows = u.rows ∧
      r.2.socket_closed = u.socket_closed ∧
      r.2.srvs_aborted = u.srvs_aborted ∧
      r.2.conn_inc = u.conn_inc ∧
      r.2.conn_eof = u.conn_eof ∧
      (u.send_buf_used ≤ SEND_BUF_SIZE → r.2.send_buf_used ≤ SEND_BUF_SIZE) := by
  intro fuel
  induction fuel with
  | zero =>
      intro u data r h
      simp [sendRawLoopF] at h
  | succ f ih =>
      intro u data r h
      match data with
      | [] =>
          simp only [sendRawLoopF, Option.some.injEq] at h
          subst h
          simp
      | b :: bs =>
          simp only [sendRawLoopF] at h
          obtain ⟨f1, f2, f3, f4, f5, f6, f7, f8, f9, f10, f11, f12⟩ :=
            tcp_conn_send_fields u u.send_buf
          by_cases h0 : SEND_BUF_SIZE - u.send_buf_used = 0
          · rw [if_pos h0] at h
            by_cases hrc : (tcp_conn_send u u.send_buf).1 = Errno.EOK
            · rw [if_pos hrc] at h
              obtain ⟨e1, e2, e3, e4, e5, e6, e7, e8, e9, e10, e11⟩ :=
                ih _ _ _ h
              exact ⟨e1.trans f1, e2.trans f2, e3.trans f3, e4.trans f4,
                e5.trans f5, e6.trans f6, e7.trans f7, e8.trans f8,
                e9.trans f9, e10.trans f10, fun _ => e11 (Nat.zero_le _)⟩
            · rw [if_neg hrc] at h
              simp only [Option.some.injEq] at h
              subst h
              exact ⟨f1, f2, f3, f4, f5, f6, f7, f8, f9, f10,
                fun hu => by rw [f12]; exact hu⟩
          · rw [if_neg h0] at h
            obtain ⟨e1, e2, e3, e4, e5, e6, e7, e8, e9, e10, e11⟩ :=
              ih _ _ _ h
            have hus : u.send_buf_used < SEND_BUF_SIZE := by omega
            have hle : u.send_buf_used +
                min (SEND_BUF_SIZE - u.send_buf_used) (b :: bs).length ≤
                SEND_BUF_SIZE := by omega
            exact ⟨e1, e2, e3, e4, e5, e6, e7, e8, e9, e10, fun _ => e11 hle⟩
theorem sendDataConvert_fst (rows : Nat) :
    ∀ data cx cy, (sendDataConvert rows data cx cy).1 = lf_to_crlf data := by
  intro data
  induction data with
  | nil => intro cx cy; simp [sendDataConvert, lf_to_crlf]
  | cons b bs ih =>
      intro cx cy
      by_cases hb : b = 10 <;>
        simp [sendDataConvert, lf_to_crlf, hb, ih]

/-- C4: for every submission `S` to `send_data`, the byte stream reaching
TCP after a flush is the previous stream plus `S` with every LF replaced by
CR LF, both calls succeed, and the batch ends empty (all TCP sends
succeeding). -/
theorem c4_send_data_lf_expansion :
    ∀ u data, u.conn_send_results = [] →
      sendDataFlushProj u data =
        some (Errno.EOK, Errno.EOK,
          u.conn_wire ++ u.send_buf ++ lf_to_crlf data, 0) := by
  intro u data hres
  unfold sendDataFlushProj telnet_user_send_data telnet_user_send_data_locked
  unfold telnet_user_send_raw_locked
  rcases h : sendRawLoopF
      (2 * (sendDataConvert u.rows data u.cursor_x u.cursor_y).1.length + 2)
      { u with cursor_x := (sendDataConvert u.rows data u.cursor_x u.cursor_y).2.1,
               cursor_y := (sendDataConvert u.rows data u.cursor_x u.cursor_y).2.2 }
      (sendDataConvert u.rows data u.cursor_x u.cursor_y).1 with _ | r
  · have hs := sendRawLoopF_isSome
      (2 * (sendDataConvert u.rows data u.cursor_x u.cursor_y).1.length + 2)
      { u with cursor_x := (sendDataConvert u.rows data u.cursor_x u.cursor_y).2.1,
               cursor_y := (sendDataConvert u.rows data u.cursor_x u.cursor_y).2.2 }
      (sendDataConvert u.rows data u.cursor_x u.cursor_y).1
      (by split <;> omega)
    rw [h] at hs
    simp at hs
  · have hres0 : ({ u with
        cursor_x := (sendDataConvert u.rows data u.cursor_x u.cursor_y).2.1,
        cursor_y := (sendDataConvert u.rows data u.cursor_x u.cursor_y).2.2 } :
          telnet_user_t).conn_send_results = [] := hres
    obtain ⟨hrc, hw, hres1⟩ := sendRawLoopF_stream _ _ _ _ hres0 h
    simp only [Option.map_some']
    have hflush : tcp_conn_send r.2 r.2.send_buf =
        (Errno.EOK, { r.2 with conn_wire := r.2.conn_wire ++ r.2.send_buf }) := by
      simp [tcp_conn_send, hres1]
    unfold telnet_user_flush
    simp only [hflush]
    simp only [Option.some.injEq, Prod.mk.injEq]
    refine ⟨hrc, ?_, ?_, ?_⟩ <;> simp [hw, sendDataConvert_fst]
/-- C4 witness: sending a LF b on a fresh session and flushing puts exactly
0x61 0x0D 0x0A 0x62 on the wire. -/
theorem c4_witness :
    sendDataFlushProj freshUser [97, 10, 98] =
      some (Errno.EOK, Errno.EOK, [97, 13, 10, 98], 0) := by
  have h := c4_send_data_lf_expansion freshUser [97, 10, 98] rfl
  simpa [freshUser, telnet_user_create, lf_to_crlf] using h

/-- C6: during `send_data` translation a backspace decrements `cursor_x`
with no clamp at 0 (the column may go negative), LF resets `cursor_x` to 0
and increments `cursor_y` only below `rows - 1`, and every other byte
increments `cursor_x`. -/
theorem c6_send_data_cursor :
    ∀ u b, sendDataCursorProj u b =
      some (if b = 10 then
              (0, if u.cursor_y < (u.rows : Int) - 1 then u.cursor_y + 1
                  else u.cursor_y)
            else
              (if b = 8 then u.cursor_x - 1 else u.cursor_x + 1,
               u.cursor_y)) := by
  intro u b
  unfold sendDataCursorProj telnet_user_send_data_locked
  unfold telnet_user_send_raw_locked
  rcases h : sendRawLoopF
      (2 * (sendDataConvert u.rows [b] u.cursor_x u.cursor_y).1.length + 2)
      { u with cursor_x := (sendDataConvert u.rows [b] u.cursor_x u.cursor_y).2.1,
               cursor_y := (sendDataConvert u.rows [b] u.cursor_x u.cursor_y).2.2 }
      (sendDataConvert u.rows [b] u.cursor_x u.cursor_y).1 with _ | r
  · have hs := sendRawLoopF_isSome
      (2 * (sendDataConvert u.rows [b] u.cursor_x u.cursor_y).1.length + 2)
      { u with cursor_x := (sendDataConvert u.rows [b] u.cursor_x u.cursor_y).2.1,
               cursor_y := (sendDataConvert u.rows [b] u.cursor_x u.cursor_y).2.2 }
      (sendDataConvert u.rows [b] u.cursor_x u.cursor_y).1
      (by split <;> omega)
    rw [h] at hs
    simp at hs
  · obtain ⟨e1, e2, e3, e4, e5, e6, e7, e8, e9, e10, e11⟩ :=
      sendRawLoopF_preserves _ _ _ _ h
    simp only [Option.map_some', Option.some.injEq]
    rw [e4, e5]
    by_cases hb : b = 10
    · simp [sendDataConvert, hb]
    · by_cases hb8 : b = 8 <;> simp [sendDataConvert, hb, hb8]
/-- C7: `update_cursor_x(new_x)` submits exactly one backspace byte to the
send path iff `new_x` is one less than the recorded column, submits nothing
otherwise, and always leaves `cursor_x = new_x` (all TCP sends
succeeding). -/
theorem c7_update_cursor_x :
    ∀ u nx, u.conn_send_results = [] →
      updateCursorProj u nx =
        some (nx, u.conn_wire ++ u.send_buf ++
          (if nx = u.cursor_x - 1 then [8] else [])) := by
  intro u nx hres
  unfold updateCursorProj telnet_user_update_cursor_x
  by_cases hc : u.cursor_x - 1 = nx
  · rw [if_pos hc]
    unfold telnet_user_send_data_locked telnet_user_send_raw_locked
    rcases h : sendRawLoopF
        (2 * (sendDataConvert u.rows [8] u.cursor_x u.cursor_y).1.length + 2)
        { u with cursor_x := (sendDataConvert u.rows [8] u.cursor_x u.cursor_y).2.1,
                 cursor_y := (sendDataConvert u.rows [8] u.cursor_x u.cursor_y).2.2 }
        (sendDataConvert u.rows [8] u.cursor_x u.cursor_y).1 with _ | r
    · have hs := sendRawLoopF_isSome
        (2 * (sendDataConvert u.rows [8] u.cursor_x u.cursor_y).1.length + 2)
        { u with cursor_x := (sendDataConvert u.rows [8] u.cursor_x u.cursor_y).2.1,
                 cursor_y := (sendDataConvert u.rows [8] u.cursor_x u.cursor_y).2.2 }
        (sendDataConvert u.rows [8] u.cursor_x u.cursor_y).1
        (by split <;> omega)
      rw [h] at hs
      simp at hs
    · have hres0 : ({ u with
          cursor_x := (sendDataConvert u.rows [8] u.cursor_x u.cursor_y).2.1,
          cursor_y := (sendDataConvert u.rows [8] u.cursor_x u.cursor_y).2.2 } :
            telnet_user_t).conn_send_results = [] := hres
      obtain ⟨hrc, hw, hres1⟩ := sendRawLoopF_stream _ _ _ _ hres0 h
      simp only [Option.map_some', Option.some.injEq, Prod.mk.injEq]
      rw [if_pos hc.symm]
      refine ⟨trivial, ?_⟩
      rw [hw]
      simp [sendDataConvert]
  · rw [if_neg hc]
    simp only [Option.map_some', Option.some.injEq, Prod.mk.injEq]
    rw [if_neg (fun hx => hc hx.symm)]
    simp
/-- C7 witness: with the column at 5, `update_cursor_x(4)` emits one
backspace and records column 4. -/
theorem c7_witness : updateCursorProj c7_user 4 = some (4, [8]) := by
  simpa [c7_user, telnet_user_create] using
    c7_update_cursor_x c7_user 4 rfl

theorem recv_wait_preserves :
    ∀ u cap rc bs u1, tcp_conn_recv_wait u cap = some (rc, bs, u1) →
      bs.length ≤ cap ∧
      u1.socket_buffer = u.socket_buffer ∧
      u1.socket_buffer_len = u.socket_buffer_len ∧
      u1.socket_buffer_pos = u.socket_buffer_pos ∧
      u1.send_buf = u.send_buf ∧
      u1.send_buf_used = u.send_buf_used ∧
      u1.socket_closed = u.socket_closed ∧
      u1.conn_send_results = u.conn_send_results ∧
      u1.conn_wire = u.conn_wire := by
  intro u cap rc bs u1 h
  unfold tcp_conn_recv_wait at h
  split at h
  · simp only [Option.some.injEq, Prod.mk.injEq] at h
    obtain ⟨h1, h2, h3⟩ := h
    subst h2; subst h3
    simp
  · split at h
    next hlen =>
      simp only [Option.some.injEq, Prod.mk.injEq] at h
      obtain ⟨h1, h2, h3⟩ := h
      subst h2; subst h3
      simpa using hlen
    next hlen =>
      simp only [Option.some.injEq, Prod.mk.injEq] at h
      obtain ⟨h1, h2, h3⟩ := h
      subst h2; subst h3
      simp [List.length_take]
  · split at h
    · simp only [Option.some.injEq, Prod.mk.injEq] at h
      obtain ⟨h1, h2, h3⟩ := h
      subst h2; subst h3
      simp
    · exact absurd h (by simp)
theorem fill_preserves :
    ∀ u rc u1, telnet_user_fill_recv_buf u = some (rc, u1) →
      (u.socket_buffer_len ≤ BUFFER_SIZE →
        u1.socket_buffer_len ≤ BUFFER_SIZE) ∧
      (rc = Errno.EOK →
        u1.socket_buffer_pos = 0 ∧ 0 < u1.socket_buffer_len ∧
        u1.socket_buffer_len ≤ BUFFER_SIZE) ∧
      (rc ≠ Errno.EOK →
        u1.socket_buffer_pos = u.socket_buffer_pos ∧
        u1.socket_buffer_len = u.socket_buffer_len) ∧
      u1.send_buf_used = u.send_buf_used ∧
      u1.send_buf = u.send_buf ∧
      (u.socket_closed = true → u1.socket_closed = true) := by
  intro u rc u1 h
  unfold telnet_user_fill_recv_buf at h
  split at h
  · exact absurd h (by simp)
  next rc0 bs u2 heq =>
    obtain ⟨hcap, _, hlen, hpos, hsb, hsu, hcl, _, _⟩ :=
      recv_wait_preserves _ _ _ _ _ heq
    split at h
    next hrc0 =>
      split at h
      next hbs =>
        simp only [Option.some.injEq, Prod.mk.injEq] at h
        obtain ⟨h1, h2⟩ := h
        subst h1; subst h2
        refine ⟨?_, ?_, ?_, ?_, ?_, ?_⟩ <;> simp_all
      next hbs =>
        simp only [Option.some.injEq, Prod.mk.injEq] at h
        obtain ⟨h1, h2⟩ := h
        subst h1; subst h2
        refine ⟨fun _ => hcap, fun _ => ⟨rfl, ?_, hcap⟩, ?_, hsu, hsb, ?_⟩
        · simpa [Nat.pos_iff_ne_zero] using hbs
        · intro hne; exact absurd rfl hne
        · intro hc; rw [← hcl] at hc; exact hc
    next hrc0 =>
      simp only [Option.some.injEq, Prod.mk.injEq] at h
      obtain ⟨h1, h2⟩ := h
      subst h1; subst h2
      refine ⟨fun hb => hlen ▸ hb, fun he => absurd he hrc0,
        fun _ => ⟨hpos, hlen⟩, hsu, hsb, fun hc => hcl ▸ hc⟩
theorem rnb_preserves :
    ∀ u rc b u1, telnet_user_recv_next_byte_locked u = some (rc, b, u1) →
      (u.socket_buffer_len ≤ BUFFER_SIZE →
        u1.socket_buffer_len ≤ BUFFER_SIZE) ∧
      (u.socket_buffer_pos ≤ u.socket_buffer_len →
        u1.socket_buffer_pos ≤ u1.socket_buffer_len) ∧
      u1.send_buf_used = u.send_buf_used ∧
      u1.send_buf = u.send_buf ∧
      (u.socket_closed = true → u1.socket_closed = true) := by
  intro u rc b u1 h
  unfold telnet_user_recv_next_byte_locked at h
  split at h
  next hdr =>
    split at h
    · exact absurd h (by simp)
    next rc0 u2 heq =>
      obtain ⟨hB, hEOK, hERR, hsu, hsb, hcl⟩ := fill_preserves _ _ _ heq
      split at h
      next hrc0 =>
        simp only [Option.some.injEq, Prod.mk.injEq] at h
        obtain ⟨h1, h2, h3⟩ := h
        subst h1; subst h3
        obtain ⟨hp0, hlpos, hlB⟩ := hEOK hrc0
        refine ⟨fun _ => hlB, fun _ => ?_, hsu, hsb, hcl⟩
        simp only [telnet_user_t.socket_buffer_pos, telnet_user_t.socket_buffer_len]
        omega
      next hrc0 =>
        simp only [Option.some.injEq, Prod.mk.injEq] at h
        obtain ⟨h1, h2, h3⟩ := h
        subst h1; subst h3
        obtain ⟨hp, hl⟩ := hERR hrc0
        exact ⟨hB, fun hle => by rw [hp, hl]; exact hle, hsu, hsb, hcl⟩
  next hdr =>
    simp only [Option.some.injEq, Prod.mk.injEq] at h
    obtain ⟨h1, h2, h3⟩ := h
    subst h1; subst h3
    have hlt : u.socket_buffer_pos < u.socket_buffer_len := by omega
    refine ⟨fun hb => hb, fun _ => ?_, rfl, rfl, fun hc => hc⟩
    simp only [telnet_user_t.socket_buffer_pos, telnet_user_t.socket_buffer_len]
    omega

theorem recvInnerF_preserves :
    ∀ fuel u inside optCode rc nb u1,
      recvInnerF fuel u inside optCode = some (rc, nb, u1) →
      (u.socket_buffer_len ≤ BUFFER_SIZE →
        u1.socket_buffer_len ≤ BUFFER_SIZE) ∧
      (u.socket_buffer_pos ≤ u.socket_buffer_len →
        u1.socket_buffer_pos ≤ u1.socket_buffer_len) ∧
      u1.send_buf_used = u.send_buf_used ∧
      u1.send_buf = u.send_buf ∧
      (u.socket_closed = true → u1.socket_closed = true) := by
  intro fuel
  induction fuel with
  | zero =>
      intro u i oc rc nb u1 h
      simp [recvInnerF] at h
  | succ f ih =>
      intro u i oc rc nb u1 h
      simp only [recvInnerF] at h
      split at h
      · exact absurd h (by simp)
      next rc0 b0 u0 heq =>
        obtain ⟨hB, hPL, hsu, hsb, hcl⟩ := rnb_preserves _ _ _ _ heq
        split at h
        · split at h
          · obtain ⟨iB, iPL, isu, isb, icl⟩ := ih _ _ _ _ _ _ h
            exact ⟨fun hb => iB (hB hb), fun hp => iPL (hPL hp),
              isu.trans hsu, isb.trans hsb, fun hc => icl (hcl hc)⟩
          · simp only [Option.some.injEq, Prod.mk.injEq] at h
            obtain ⟨h1, h2, h3⟩ := h
            subst h3
            exact ⟨hB, hPL, hsu, hsb, hcl⟩
        · simp only [Option.some.injEq, Prod.mk.injEq] at h
          obtain ⟨h1, h2, h3⟩ := h
          subst h3
          exact ⟨hB, hPL, hsu, hsb, hcl⟩

theorem recvOuterF_preserves :
    ∀ fuel u size acc rc out u1,
      recvOuterF fuel u size acc = some (rc, out, u1) →
      (u.socket_buffer_len ≤ BUFFER_SIZE →
        u1.socket_buffer_len ≤ BUFFER_SIZE) ∧
      (u.socket_buffer_pos ≤ u.socket_buffer_len →
        u1.socket_buffer_pos ≤ u1.socket_buffer_len) ∧
      u1.send_buf_used = u.send_buf_used ∧
      u1.send_buf = u.send_buf ∧
      (u.socket_closed = true → u1.socket_closed = true) := by
  intro fuel
  induction fuel with
  | zero =>
      intro u size acc rc out u1 h
      simp [recvOuterF] at h
  | succ f ih =>
      intro u size acc rc out u1 h
      simp only [recvOuterF] at h
      split at h
      · exact absurd h (by simp)
      next rc0 nb u0 heq =>
        obtain ⟨hB, hPL, hsu, hsb, hcl⟩ := recvInnerF_preserves _ _ _ _ _ _ _ heq
        split at h
        · set nb2 := (if nb = 13 then 10 else nb) with hnb2
          by_cases h0 : nb2 ≠ 0
          · simp only [if_pos h0] at h
            split at h
            · obtain ⟨iB, iPL, isu, isb, icl⟩ := ih _ _ _ _ _ _ h
              exact ⟨fun hb => iB (hB hb), fun hp => iPL (hPL hp),
                isu.trans hsu, isb.trans hsb, fun hc => icl (hcl hc)⟩
            · simp only [Option.some.injEq, Prod.mk.injEq] at h
              obtain ⟨h1, h2, h3⟩ := h
              subst h3
              exact ⟨hB, hPL, hsu, hsb, hcl⟩
          · simp only [if_neg h0] at h
            split at h
            · obtain ⟨iB, iPL, isu, isb, icl⟩ := ih _ _ _ _ _ _ h
              exact ⟨fun hb => iB (hB hb), fun hp => iPL (hPL hp),
                isu.trans hsu, isb.trans hsb, fun hc => icl (hcl hc)⟩
            · simp only [Option.some.injEq, Prod.mk.injEq] at h
              obtain ⟨h1, h2, h3⟩ := h
              subst h3
              exact ⟨hB, hPL, hsu, hsb, hcl⟩
        · simp only [Option.some.injEq, Prod.mk.injEq] at h
          obtain ⟨h1, h2, h3⟩ := h
          subst h3
          exact ⟨hB, hPL, hsu, hsb, hcl⟩
theorem peerClosedState_idem :
    ∀ u, peerClosedState (peerClosedState u) = peerClosedState u := by
  intro u
  cases u
  rfl

theorem recv_at_eof :
    ∀ u size, u.conn_inc = [] → u.conn_eof = true →
      u.socket_buffer_len ≤ u.socket_buffer_pos →
      telnet_user_recv u size = some (Errno.ENOENT, [], peerClosedState u) := by
  intro u size h1 h2 h3
  have hfill : telnet_user_fill_recv_buf u =
      some (Errno.ENOENT, peerClosedState u) := by
    unfold telnet_user_fill_recv_buf tcp_conn_recv_wait
    simp [h1, h2, peerClosedState]
  have hrnb : telnet_user_recv_next_byte_locked u =
      some (Errno.ENOENT, 0, peerClosedState u) := by
    unfold telnet_user_recv_next_byte_locked
    rw [if_pos h3]
    simp [hfill]
  have hinner : recvInnerF (availBytes u + 1) u false 0 =
      some (Errno.ENOENT, 0, peerClosedState u) := by
    simp only [recvInnerF, hrnb]
    simp
  unfold telnet_user_recv
  simp only [recvOuterF, hinner]
  simp

/-- C8: a zero-byte TCP refill during recv sets `socket_closed` and
`srv_aborted`, makes the call fail with the distinct peer-closed error
ENOENT and deliver nothing, the transition is monotonic (no recv resets
`socket_closed`), and every subsequent recv on the session fails the same
way. -/
theorem c8_peer_close :
    (∀ u size, u.conn_inc = [] → u.conn_eof = true →
        u.socket_buffer_len ≤ u.socket_buffer_pos →
        telnet_user_recv u size = some (Errno.ENOENT, [], peerClosedState u) ∧
        (peerClosedState u).socket_closed = true ∧
        (peerClosedState u).srvs_aborted = true ∧
        telnet_user_recv (peerClosedState u) size =
          some (Errno.ENOENT, [], peerClosedState u)) ∧
    (∀ u size r, r ∈ telnet_user_recv u size → u.socket_closed = true →
        r.2.2.socket_closed = true) := by
  constructor
  · intro u size h1 h2 h3
    refine ⟨recv_at_eof u size h1 h2 h3, rfl, rfl, ?_⟩
    have h4 := recv_at_eof (peerClosedState u) size h1 h2 h3
    rw [peerClosedState_idem] at h4
    exact h4
  · intro u size r hr hcl
    rw [Option.mem_def] at hr
    obtain ⟨rc, out, u1⟩ := r
    unfold telnet_user_recv at hr
    obtain ⟨_, _, _, _, hmono⟩ := recvOuterF_preserves _ _ _ _ _ _ _ hr
    exact hmono hcl

/-- C8 witness: on a concrete drained session whose peer has closed, recv
fails with ENOENT, marks the session closed and aborted, and a second recv
fails identically. -/
theorem c8_witness :
    telnet_user_recv c8_user 5 =
      some (Errno.ENOENT, [], peerClosedState c8_user) ∧
    (peerClosedState c8_user).socket_closed = true ∧
    (peerClosedState c8_user).srvs_aborted = true ∧
    telnet_user_recv (peerClosedState c8_user) 5 =
      some (Errno.ENOENT, [], peerClosedState c8_user) :=
  c8_peer_close.1 c8_user 5 rfl rfl (by decide)
/-- C9: every session operation (recv, send_data, send_raw, flush,
update_cursor_x) preserves the buffer-index invariants
`socket_buffer_pos ≤ socket_buffer_len ≤ BUFFER_SIZE` and
`send_buf_used ≤ SEND_BUF_SIZE`. -/
theorem c9_buffer_invariants :
    ∀ u, buffersInv u →
      (∀ size r, r ∈ telnet_user_recv u size → buffersInv r.2.2) ∧
      (∀ data r, r ∈ telnet_user_send_data u data → buffersInv r.2) ∧
      (∀ data r, r ∈ telnet_user_send_raw u data → buffersInv r.2) ∧
      buffersInv (telnet_user_flush u).2 ∧
      (∀ nx u1, u1 ∈ telnet_user_update_cursor_x u nx → buffersInv u1) := by
  intro u hInv
  obtain ⟨hPL, hLB, hUS⟩ := hInv
  refine ⟨?_, ?_, ?_, ?_, ?_⟩
  · intro size r hr
    rw [Option.mem_def] at hr
    obtain ⟨rc, out, u1⟩ := r
    unfold telnet_user_recv at hr
    obtain ⟨hB, hP, hsu, _, _⟩ := recvOuterF_preserves _ _ _ _ _ _ _ hr
    exact ⟨hP hPL, hB hLB, by rw [hsu]; exact hUS⟩
  · intro data r hr
    rw [Option.mem_def] at hr
    unfold telnet_user_send_data telnet_user_send_data_locked
      telnet_user_send_raw_locked at hr
    obtain ⟨e1, e2, e3, _, _, _, _, _, _, _, e11⟩ :=
      sendRawLoopF_preserves _ _ _ _ hr
    have p1 : r.2.socket_buffer_pos = u.socket_buffer_pos := e3
    have p2 : r.2.socket_buffer_len = u.socket_buffer_len := e2
    exact ⟨by rw [p1, p2]; exact hPL, by rw [p2]; exact hLB, e11 hUS⟩
  · intro data r hr
    rw [Option.mem_def] at hr
    unfold telnet_user_send_raw telnet_user_send_raw_locked at hr
    obtain ⟨e1, e2, e3, _, _, _, _, _, _, _, e11⟩ :=
      sendRawLoopF_preserves _ _ _ _ hr
    exact ⟨by rw [e3, e2]; exact hPL, by rw [e2]; exact hLB, e11 hUS⟩
  · obtain ⟨f1, f2, f3, f4, f5, f6, f7, f8, f9, f10, f11, f12⟩ :=
      tcp_conn_send_fields u u.send_buf
    unfold telnet_user_flush
    by_cases hrc : (tcp_conn_send u u.send_buf).1 = Errno.EOK
    · rw [if_pos hrc]
      refine ⟨?_, ?_, ?_⟩
      · show (tcp_conn_send u u.send_buf).2.socket_buffer_pos ≤
          (tcp_conn_send u u.send_buf).2.socket_buffer_len
        rw [f3, f2]
        exact hPL
      · show (tcp_conn_send u u.send_buf).2.socket_buffer_len ≤ BUFFER_SIZE
        rw [f2]
        exact hLB
      · exact Nat.zero_le _
    · rw [if_neg hrc]
      refine ⟨?_, ?_, ?_⟩
      · show (tcp_conn_send u u.send_buf).2.socket_buffer_pos ≤
          (tcp_conn_send u u.send_buf).2.socket_buffer_len
        rw [f3, f2]
        exact hPL
      · show (tcp_conn_send u u.send_buf).2.socket_buffer_len ≤ BUFFER_SIZE
        rw [f2]
        exact hLB
      · show (tcp_conn_send u u.send_buf).2.send_buf_used ≤ SEND_BUF_SIZE
        rw [f12]
        exact hUS
  · intro nx u1 hr
    rw [Option.mem_def] at hr
    unfold telnet_user_update_cursor_x at hr
    split at hr
    · split at hr
      · exact absurd hr (by simp)
      next rc0 u2 heq =>
        unfold telnet_user_send_data_locked telnet_user_send_raw_locked at heq
        obtain ⟨e1, e2, e3, _, _, _, _, _, _, _, e11⟩ :=
          sendRawLoopF_preserves _ _ _ _ heq
        simp only [Option.some.injEq] at hr
        subst hr
        have p1 : u2.socket_buffer_pos = u.socket_buffer_pos := e3
        have p2 : u2.socket_buffer_len = u.socket_buffer_len := e2
        have p3 : u2.send_buf_used ≤ SEND_BUF_SIZE := e11 hUS
        refine ⟨?_, ?_, ?_⟩
        · show u2.socket_buffer_pos ≤ u2.socket_buffer_len
          rw [p1, p2]
          exact hPL
        · show u2.socket_buffer_len ≤ BUFFER_SIZE
          rw [p2]
          exact hLB
        · exact p3
    · simp only [Option.some.injEq] at hr
      subst hr
      exact ⟨hPL, hLB, hUS⟩

/-- C9 witness: the invariants hold for a fresh session and are kept by a
flush. -/
theorem c9_witness : buffersInv (telnet_user_flush freshUser).2 :=
  (c9_buffer_invariants freshUser (by decide)).2.2.2.1

/-- C10: `flush` is atomic on the batch buffer: a failing TCP send leaves
`send_buf_used`, the buffered bytes and the wire untouched, and only a
successful flush resets `send_buf_used` to 0. -/
theorem c10_flush_atomic :
    ∀ u,
      ((telnet_user_flush u).1 ≠ Errno.EOK →
        (telnet_user_flush u).2.send_buf_used = u.send_buf_used ∧
        (telnet_user_flush u).2.send_buf = u.send_buf ∧
        (telnet_user_flush u).2.conn_wire = u.conn_wire) ∧
      ((telnet_user_flush u).1 = Errno.EOK →
        (telnet_user_flush u).2.send_buf_used = 0) := by
  intro u
  unfold telnet_user_flush tcp_conn_send
  rcases h : u.conn_send_results with _ | ⟨r0, rest⟩ <;> simp only [h]
  · simp
  · by_cases hr : r0 = Errno.EOK <;> simp [hr]

/-- C10 witness: on a session whose next TCP send fails, flush leaves the
two batched bytes in place. -/
theorem c10_witness :
    (telnet_user_flush c10_user).2.send_buf_used = c10_user.send_buf_used ∧
    (telnet_user_flush c10_user).2.send_buf = c10_user.send_buf ∧
    (telnet_user_flush c10_user).2.conn_wire = c10_user.conn_wire :=
  (c10_flush_atomic c10_user).1 (by decide)
